import Mathlib

/-!
Shallow embedding of the LegalLens.AI batch-ingestion pipeline and
persistent store, verified against the repository's specification.

Source files embedded:
  * `src/unnamed/part_000` — `storageService` (localStorage-backed store:
    `getContracts`, `saveContract`, `getContractById`, `getRecentAnalyses`,
    `saveRecentAnalysis`).
  * `src/components/ContractUpload.tsx` — the upload pipeline
    (`validateAndAddFiles`, `processFile`, `handleAnalyzeAll`,
    `handleRemoveFile`).

Effects are embedded explicitly: a localStorage key holds a `Blob` that is
absent, corrupted (its JSON no longer parses), or parsed data; a
`localStorage.setItem` call is modelled by an oracle returning
`Option JsError` (`none` = the write succeeded, `some e` = `setItem` threw
`e`).  Thrown JavaScript exceptions become `Except JsError` results.
-/

namespace LegalLens

/-- A clause record of the analysis artifact (fields as used by the source:
id, text, explanation, riskLevel, riskyKeywords, reason). -/
structure Clause where
  id : String
  text : String
  explanation : String
  riskLevel : String
  riskyKeywords : List String
  reason : String
deriving DecidableEq, Repr

/-- The structured analysis returned by the analysis client
(`summary`, `overallRisk`, `riskScore`, `clauses`, `fullText`). -/
structure ContractAnalysis where
  summary : String
  overallRisk : String
  riskScore : Nat
  clauses : List Clause
  fullText : String
deriving DecidableEq, Repr

/-- The persisted `Contract` record as constructed in `ContractUpload.tsx`:
`fileData` is the optional base64 byte content (dropped under storage
pressure), `uploadDate` is the `Date.now()` timestamp. -/
structure Contract where
  id : String
  userId : String
  fileName : String
  uploadDate : Nat
  status : String
  analysis : ContractAnalysis
  fileData : Option String
  mimeType : String
deriving DecidableEq, Repr

/-- A `RecentAnalysis` cache entry as constructed in `processFile`. -/
structure RecentAnalysis where
  id : String
  name : String
  createdAt : String
  sourceType : String
  fileName : String
  rawText : String
  riskScore : Nat
  riskSummary : String
  summary : List String
  clauses : List Clause
deriving DecidableEq, Repr

/-- A JavaScript exception value; `saveContract` inspects `name` and
`code` to recognise a quota error. -/
structure JsError where
  name : String
  code : Nat
deriving DecidableEq, Repr

/-- Line 92 of the store:
`e.name === 'QuotaExceededError' || e.code === 22 || e.code === 1014`. -/
def isQuotaError (e : JsError) : Bool :=
  e.name == "QuotaExceededError" || e.code == 22 || e.code == 1014

/-- The quota exception thrown by a full `localStorage`. -/
def quotaError : JsError := { name := "QuotaExceededError", code := 22 }

/-- The exception `JSON.parse` throws on a corrupted blob. -/
def syntaxError : JsError := { name := "SyntaxError", code := 0 }

/-- The contents of one localStorage key: absent, present but no longer
parsable (corruption), or parsed data. -/
inductive Blob (α : Type) where
  | absent : Blob α
  | corrupt : Blob α
  | data : α → Blob α
deriving DecidableEq, Repr

/-- `JSON.parse(localStorage.getItem(key) || '[]')`: an absent key parses
as the empty list, a corrupted blob throws, data parses to itself. -/
def parseListOrEmpty {α : Type} : Blob (List α) → Except JsError (List α)
  | .absent => .ok []
  | .corrupt => .error syntaxError
  | .data l => .ok l

/-! ### storageService reads (part_000 lines 59–69, 116–135) -/

/-- `storageService.getContracts`: parse the contracts blob (catching any
parse failure as `[]`), filter by owner, sort by `uploadDate` descending
(`.sort((a, b) => b.uploadDate - a.uploadDate)`; the comparator admits `a`
before `b` iff `b.uploadDate ≤ a.uploadDate`). -/
def getContracts (userId : String) (blob : Blob (List Contract)) :
    List Contract :=
  match parseListOrEmpty blob with
  | .error _ => []
  | .ok allContracts =>
    (allContracts.filter (fun c => c.userId == userId)).mergeSort
      (fun a b => decide (b.uploadDate ≤ a.uploadDate))

/-- `storageService.getContractById`: parse (catching failure as
`undefined`), then `find(c => c.id === id)`. -/
def getContractById (id : String) (blob : Blob (List Contract)) :
    Option Contract :=
  match parseListOrEmpty blob with
  | .error _ => none
  | .ok allContracts => allContracts.find? (fun c => c.id == id)

/-- `storageService.getRecentAnalyses`: stored blob or `[]`, catching any
parse failure as `[]`. -/
def getRecentAnalyses (blob : Blob (List RecentAnalysis)) :
    List RecentAnalysis :=
  match parseListOrEmpty blob with
  | .error _ => []
  | .ok l => l

/-! ### storageService.saveContract (part_000 lines 71–114) -/

/-- The in-memory update of `saveToStorage`:
`findIndex(c => c.id === x.id)`; overwrite in place when found, else
`push`. -/
def upsertContract (x : Contract) (l : List Contract) : List Contract :=
  match l.findIdx? (fun c => c.id == x.id) with
  | some index => l.set index x
  | none => l ++ [x]

/-- The inner `saveToStorage` closure: re-read and parse the contracts
blob (a parse failure propagates out of the closure), upsert, then
`setItem`; `writeOutcome` is the `setItem` oracle (`some e` = it threw
`e`). -/
def saveToStorage (writeOutcome : List Contract → Option JsError)
    (blob : Blob (List Contract)) (x : Contract) :
    Except JsError (Blob (List Contract)) :=
  match parseListOrEmpty blob with
  | .error e => .error e
  | .ok allContracts =>
    let updated := upsertContract x allContracts
    match writeOutcome updated with
    | none => .ok (.data updated)
    | some e => .error e

/-- The degraded copy built under quota pressure:
`{ ...contract, fileData: undefined }`. -/
def lightCopy (c : Contract) : Contract := { c with fileData := none }

/-- `storageService.saveContract`: try the full write; on a quota error
retry once with the light copy and still return the original contract; on
any other error, or when the retry also fails, rethrow.  The result pairs
the new blob with the contract returned to the caller. -/
def saveContract (writeOutcome : List Contract → Option JsError)
    (blob : Blob (List Contract)) (contract : Contract) :
    Except JsError (Blob (List Contract) × Contract) :=
  match saveToStorage writeOutcome blob contract with
  | .ok blob' => .ok (blob', contract)
  | .error e =>
    if isQuotaError e then
      match saveToStorage writeOutcome blob (lightCopy contract) with
      | .ok blob' => .ok (blob', contract)
      | .error retryError => .error retryError
    else
      .error e

/-! ### storageService.saveRecentAnalysis (part_000 lines 137–153) -/

/-- The pure update of the recent-analysis cache: drop any entry with the
same id, `unshift` the new entry, `slice(0, 10)`. -/
def cacheStep (analysis : RecentAnalysis) (recent : List RecentAnalysis) :
    List RecentAnalysis :=
  (analysis :: recent.filter (fun item => item.id != analysis.id)).take 10

/-- `storageService.saveRecentAnalysis`: read the cache (reads never
throw), compute the trimmed list, `setItem`.  The whole body sits in a
`try { … } catch (e) { console.error(…) }`, so a failing write is
swallowed and the blob is left unchanged — the function itself never
throws. -/
def saveRecentAnalysis
    (writeOutcome : List RecentAnalysis → Option JsError)
    (blob : Blob (List RecentAnalysis)) (analysis : RecentAnalysis) :
    Blob (List RecentAnalysis) :=
  let trimmed := cacheStep analysis (getRecentAnalyses blob)
  match writeOutcome trimmed with
  | none => .data trimmed
  | some _ => blob

/-- `saveRecentAnalysis` as seen by its caller: since every internal
failure is caught, the call always returns normally. -/
def saveRecentAnalysisE
    (writeOutcome : List RecentAnalysis → Option JsError)
    (blob : Blob (List RecentAnalysis)) (analysis : RecentAnalysis) :
    Except JsError (Blob (List RecentAnalysis)) :=
  .ok (saveRecentAnalysis writeOutcome blob analysis)

/-! ### ContractUpload.tsx — the batch ingestion pipeline -/

/-- The per-item lifecycle status of `FileUploadState`. -/
inductive FileStatus where
  | pending
  | processing
  | success
  | error
deriving DecidableEq, Repr

/-- A browser `File` object; `key` stands for the object's identity (the
source compares files with `===`). -/
structure UploadFile where
  key : Nat
  name : String
  type : String
  size : Nat
deriving DecidableEq, Repr

/-- `FileUploadState` from `ContractUpload.tsx`. -/
structure FileUploadState where
  file : UploadFile
  status : FileStatus
  error : Option String := none
  contract : Option Contract := none
deriving DecidableEq, Repr

/-- The fixed media-type allow-list of `validateAndAddFiles`. -/
def validTypes : List String :=
  ["application/pdf", "image/jpeg", "image/png", "image/webp"]

/-- The rejection message built for an invalid file. -/
def invalidFormatMsg (name : String) : String :=
  "File \x22" ++ name ++ "\x22 has an invalid format. Please upload PDF or Images."

/-- The component state touched by `validateAndAddFiles`: the batch and
the `globalError` banner. -/
structure UploadComponentState where
  files : List FileUploadState
  globalError : Option String
deriving DecidableEq, Repr

/-- One `forEach` iteration of `validateAndAddFiles`: the accumulator is
the pending `setGlobalError` value and the `newFiles` array; an invalid
file overwrites the error and is skipped, a valid file is pushed as a
`pending` item. -/
def submitStep (acc : Option String × List FileUploadState)
    (file : UploadFile) : Option String × List FileUploadState :=
  if validTypes.contains file.type then
    (acc.1, acc.2 ++ [{ file := file, status := .pending }])
  else
    (some (invalidFormatMsg file.name), acc.2)

/-- `validateAndAddFiles`: walk the submitted list; an invalid file sets
`globalError` to its message and is skipped, a valid file is collected as
a `pending` item.  Afterwards, if any file was valid, the new items are
appended to the batch and `globalError` is reset to `null`. -/
def validateAndAddFiles (st : UploadComponentState)
    (fileList : List UploadFile) : UploadComponentState :=
  let walked := fileList.foldl submitStep (st.globalError, [])
  let newFiles := walked.2
  if newFiles.length > 0 then
    { files := st.files ++ newFiles, globalError := none }
  else
    { st with globalError := walked.1 }

/-- The environment a dispatch runs against: the `FileReader` conversion
result, the analysis-client result, the generated id and `Date.now()`
timestamp, and the outcome of awaiting `storageService.saveContract`
(`some e` = the save rejected with `e`). -/
structure ProcessEnv where
  readResult : UploadFile → Except String String
  analyzeResult : String → String → Except String ContractAnalysis
  genId : UploadFile → String
  now : Nat
  saveResult : Contract → Option JsError

/-- `processFile`: convert to base64, call the analysis client, build the
`Contract`, save it.  Every failure is caught by the surrounding
`try/catch` and mapped to `status = error` with the reason
`'Failed to analyze'`; the subsequent `saveRecentAnalysis` call swallows
its own errors (see `saveRecentAnalysis`) so it cannot fail the item. -/
def processFile (env : ProcessEnv) (userId : String)
    (fileState : FileUploadState) : FileUploadState :=
  match env.readResult fileState.file with
  | .error _ => { fileState with status := .error, error := some "Failed to analyze" }
  | .ok base64Data =>
    match env.analyzeResult base64Data fileState.file.type with
    | .error _ => { fileState with status := .error, error := some "Failed to analyze" }
    | .ok analysis =>
      let newContract : Contract :=
        { id := env.genId fileState.file
          userId := userId
          fileName := fileState.file.name
          uploadDate := env.now
          status := "analyzed"
          analysis := analysis
          fileData := some base64Data
          mimeType := fileState.file.type }
      match env.saveResult newContract with
      | some _ => { fileState with status := .error, error := some "Failed to analyze" }
      | none => { fileState with status := .success, contract := some newContract }

/-- The first state update of `handleAnalyzeAll`:
`prev.map(f => f.status === 'pending' ? { ...f, status: 'processing' } : f)`. -/
def markProcessing (files : List FileUploadState) : List FileUploadState :=
  files.map (fun f =>
    if f.status == .pending then { f with status := .processing } else f)

/-- One iteration of the merge in `handleAnalyzeAll`'s second state
update: overwrite the entry with the same `file` identity
(`findIndex(f => f.file === res.file)`), or skip the result when its file
is no longer present. -/
def mergeStep (next : List FileUploadState) (res : FileUploadState) :
    List FileUploadState :=
  match next.findIdx? (fun f => f.file == res.file) with
  | some idx => next.set idx res
  | none => next

/-- The second state update of `handleAnalyzeAll`: copy the current list
and fold every settled result into it. -/
def mergeResults (cur : List FileUploadState)
    (results : List FileUploadState) : List FileUploadState :=
  results.foldl mergeStep cur

/-- What one `handleAnalyzeAll` invocation produces: the merged batch,
the optional `onUploadComplete` navigation signal, and the exception the
handler threw, if any. -/
structure AnalyzeAllResult where
  files : List FileUploadState
  navigate : Option Contract
  thrown : Option String
deriving DecidableEq, Repr

/-- `handleAnalyzeAll`: mark pending items `processing`, dispatch
`processFile` over the items that were `pending` in the captured `files`,
merge the settled results back, then run the navigation check
`files.length === 1 && results[0].status === 'success' && results[0].contract`.
When `files.length === 1` but no item was dispatched, `results[0]` is
`undefined` and reading `.status` throws a `TypeError` (after both state
updates have already been queued). -/
def handleAnalyzeAll (env : ProcessEnv) (userId : String)
    (files : List FileUploadState) : AnalyzeAllResult :=
  let afterMark := markProcessing files
  let pendingFiles := files.filter (fun f => f.status == .pending)
  let results := pendingFiles.map (processFile env userId)
  let newFiles := mergeResults afterMark results
  if files.length == 1 then
    match results.head? with
    | none =>
      { files := newFiles, navigate := none
        thrown := some "TypeError: Cannot read properties of undefined (reading 'status')" }
    | some r0 =>
      if r0.status == .success then
        match r0.contract with
        | some c => { files := newFiles, navigate := some c, thrown := none }
        | none => { files := newFiles, navigate := none, thrown := none }
      else
        { files := newFiles, navigate := none, thrown := none }
  else
    { files := newFiles, navigate := none, thrown := none }

/-- `handleRemoveFile`: `prev.filter((_, i) => i !== index)` — drop the
entry at `index` whatever its status. -/
def handleRemoveFile (files : List FileUploadState) (index : Nat) :
    List FileUploadState :=
  ((files.enum).filter (fun p => p.1 != index)).map (fun p => p.2)

/-- The remove control of the file list is rendered only inside
`fileState.status === 'pending' && (<button onClick={() => handleRemoveFile(index)} …`. -/
def removeButtonVisible (status : FileStatus) : Bool :=
  status == .pending

/-! ## Helper lemmas -/

theorem upsertContract_nil (x : Contract) : upsertContract x [] = [x] := rfl

theorem upsertContract_cons (x c : Contract) (l : List Contract) :
    upsertContract x (c :: l) =
      if c.id == x.id then x :: l else c :: upsertContract x l := by
  unfold upsertContract
  by_cases h : c.id == x.id
  · simp [List.findIdx?_cons, h]
  · simp only [List.findIdx?_cons, h, Bool.false_eq_true, if_false, if_pos,
      List.findIdx?_succ]
    cases hf : l.findIdx? (fun d => d.id == x.id) with
    | none => simp [hf, h]
    | some i => simp [hf, h]

theorem find?_upsertContract (x : Contract) (l : List Contract) :
    (upsertContract x l).find? (fun c => c.id == x.id) = some x := by
  induction l with
  | nil => simp [upsertContract_nil, List.find?_cons]
  | cons c l ih =>
    rw [upsertContract_cons]
    by_cases h : c.id == x.id
    · simp [h, List.find?_cons]
    · simp [h, List.find?_cons, ih]

theorem saveToStorage_ok_shape (w : List Contract → Option JsError)
    (blob : Blob (List Contract)) (x : Contract) (blob' : Blob (List Contract))
    (h : saveToStorage w blob x = .ok blob') :
    ∃ prev, parseListOrEmpty blob = .ok prev ∧
      blob' = .data (upsertContract x prev) := by
  unfold saveToStorage at h
  cases hp : parseListOrEmpty blob with
  | error e => rw [hp] at h; exact absurd h (by simp)
  | ok prev =>
    rw [hp] at h
    cases hw : w (upsertContract x prev) with
    | none =>
      simp only [hw] at h
      exact ⟨prev, rfl, (Except.ok.injEq _ _ ▸ congrArg id h).symm ▸ by
        cases h; rfl⟩
    | some e => simp [hw] at h

/-! ## C7 — reads tolerate corruption and empty results -/

/-- C7: each store read (documents by user, document by id, recent
analyses) returns an empty result on a corrupted or absent blob instead
of raising, and reading documents for a user with no matching records
returns the empty list. -/
theorem reads_tolerate_corruption :
    (∀ u : String, getContracts u .corrupt = [] ∧ getContracts u .absent = []) ∧
    (∀ i : String, getContractById i .corrupt = none ∧
      getContractById i .absent = none) ∧
    (getRecentAnalyses .corrupt = [] ∧ getRecentAnalyses .absent = []) ∧
    (∀ (u : String) (l : List Contract), (∀ c ∈ l, c.userId ≠ u) →
      getContracts u (.data l) = []) := by
  refine ⟨fun u => ⟨rfl, by simp [getContracts, parseListOrEmpty]⟩,
    fun i => ⟨rfl, rfl⟩, ⟨rfl, rfl⟩, fun u l h => ?_⟩
  unfold getContracts parseListOrEmpty
  have hf : l.filter (fun c => c.userId == u) = [] := by
    simp only [List.filter_eq_nil_iff]
    intro c hc
    simpa using h c hc
  simp [hf]

/-- C7 witness at a concrete store. -/
theorem reads_tolerate_corruption_witness :
    getContracts "alice" .corrupt = [] ∧
    getContracts "alice"
      (.data [{ id := "d1", userId := "bob", fileName := "f", uploadDate := 3,
                status := "analyzed",
                analysis := { summary := "s", overallRisk := "Low", riskScore := 0,
                              clauses := [], fullText := "t" },
                fileData := none, mimeType := "application/pdf" }]) = [] :=
  ⟨(reads_tolerate_corruption.1 "alice").1,
    reads_tolerate_corruption.2.2.2 "alice" _ (by decide)⟩

/-! ## C8 — getContracts returns exactly the owner's documents, newest first -/

/-- C8: `getContracts` returns a permutation of the stored documents whose
owner identifier equals the requested user id, sorted by upload timestamp
descending; every returned document belongs to the requested user. -/
theorem getContracts_exact_sorted (u : String) (l : List Contract) :
    List.Perm (getContracts u (.data l)) (l.filter (fun c => c.userId == u)) ∧
    (getContracts u (.data l)).Pairwise
      (fun a b => b.uploadDate ≤ a.uploadDate) ∧
    (∀ c ∈ getContracts u (.data l), c.userId = u) := by
  have hunf : getContracts u (.data l) =
      (l.filter (fun c => c.userId == u)).mergeSort
        (fun a b => decide (b.uploadDate ≤ a.uploadDate)) := rfl
  have hperm := List.mergeSort_perm (l.filter (fun c => c.userId == u))
    (fun a b => decide (b.uploadDate ≤ a.uploadDate))
  refine ⟨hunf ▸ hperm, ?_, ?_⟩
  · have hs := @List.sorted_mergeSort Contract
      (fun a b : Contract => decide (b.uploadDate ≤ a.uploadDate))
      (fun a b c hab hbc => by
        simp only [decide_eq_true_eq] at *; omega)
      (fun a b => by
        simp only [Bool.or_eq_true, decide_eq_true_eq]; omega)
      (l.filter (fun c => c.userId == u))
    rw [hunf]
    exact hs.imp (fun h => by simpa using h)
  · intro c hc
    have : c ∈ l.filter (fun d => d.userId == u) :=
      (hunf ▸ hperm).mem_iff.mp hc
    have := List.of_mem_filter this
    simpa using this

/-- C8 witness: a concrete two-owner store sorts and filters as stated. -/
theorem getContracts_exact_sorted_witness :
    (getContracts "alice"
      (.data [{ id := "d1", userId := "alice", fileName := "f1", uploadDate := 3,
                status := "analyzed",
                analysis := { summary := "s", overallRisk := "Low", riskScore := 0,
                              clauses := [], fullText := "t" },
                fileData := none, mimeType := "application/pdf" },
              { id := "d2", userId := "alice", fileName := "f2", uploadDate := 7,
                status := "analyzed",
                analysis := { summary := "s", overallRisk := "Low", riskScore := 0,
                              clauses := [], fullText := "t" },
                fileData := none, mimeType := "application/pdf" }])).Pairwise
      (fun a b => b.uploadDate ≤ a.uploadDate) :=
  (getContracts_exact_sorted "alice" _).2.1

/-! ## C1 — quota-exhausted Document writes degrade to a light copy -/

/-- C1: when the full write fails with a capacity-exhaustion error,
`saveContract` retries exactly once with `fileData` cleared and all other
fields preserved; if the light retry succeeds the caller receives the
original full-fidelity contract while the store holds the light copy
(readable back by id); if the light retry fails, that failure is the
caller's result. -/
theorem saveContract_quota_light_retry
    (w : List Contract → Option JsError) (blob : Blob (List Contract))
    (c : Contract) (e : JsError)
    (hfull : saveToStorage w blob c = .error e)
    (hq : isQuotaError e = true) :
    ((lightCopy c).fileData = none ∧ (lightCopy c).id = c.id ∧
      (lightCopy c).userId = c.userId ∧ (lightCopy c).fileName = c.fileName ∧
      (lightCopy c).uploadDate = c.uploadDate ∧
      (lightCopy c).status = c.status ∧
      (lightCopy c).analysis = c.analysis ∧
      (lightCopy c).mimeType = c.mimeType) ∧
    (∀ blob', saveToStorage w blob (lightCopy c) = .ok blob' →
        saveContract w blob c = .ok (blob', c) ∧
        getContractById c.id blob' = some (lightCopy c)) ∧
    (∀ e2, saveToStorage w blob (lightCopy c) = .error e2 →
        saveContract w blob c = .error e2) := by
  refine ⟨⟨rfl, rfl, rfl, rfl, rfl, rfl, rfl, rfl⟩, ?_, ?_⟩
  · intro blob' hlight
    constructor
    · unfold saveContract
      rw [hfull]
      simp [hq, hlight]
    · obtain ⟨prev, -, hshape⟩ := saveToStorage_ok_shape w blob (lightCopy c) blob' hlight
      subst hshape
      unfold getContractById parseListOrEmpty
      exact find?_upsertContract (lightCopy c) prev
  · intro e2 hlight
    unfold saveContract
    rw [hfull]
    simp [hq, hlight]

/-- A sample analysis record for concrete witnesses. -/
def probeAnalysis : ContractAnalysis :=
  { summary := "s", overallRisk := "Low", riskScore := 0, clauses := [],
    fullText := "t" }

/-- A contract with a heavy `fileData` payload, for concrete witnesses. -/
def probeContract : Contract :=
  { id := "d1", userId := "u", fileName := "a.pdf", uploadDate := 1,
    status := "analyzed", analysis := probeAnalysis,
    fileData := some "BIGDATA", mimeType := "application/pdf" }

/-- A `setItem` model whose capacity only fits byte-content-free rows: a
write containing any `fileData` throws the quota error. -/
def quotaWhenHeavy : List Contract → Option JsError := fun l =>
  if l.any (fun c => c.fileData.isSome) then some quotaError else none

/-- C1 witness: a concrete quota-constrained store degrades the probe
contract to its light copy while returning the full contract. -/
theorem saveContract_quota_light_retry_witness :
    saveContract quotaWhenHeavy .absent probeContract =
      .ok (.data [lightCopy probeContract], probeContract) ∧
    getContractById probeContract.id (.data [lightCopy probeContract]) =
      some (lightCopy probeContract) :=
  (saveContract_quota_light_retry quotaWhenHeavy .absent probeContract
      quotaError (by rfl) (by decide)).2.1
    (.data [lightCopy probeContract]) (by rfl)

/-! ## C2 — the recent-analysis cache invariants -/

/-- The identifiers of the cache entries, in order. -/
def cacheIds (l : List RecentAnalysis) : List String :=
  l.map (fun x => x.id)

theorem cacheStep_length_le (a : RecentAnalysis) (l : List RecentAnalysis) :
    (cacheStep a l).length ≤ 10 := by
  simp only [cacheStep, List.length_take]
  omega

theorem cacheStep_ids_nodup (a : RecentAnalysis) (l : List RecentAnalysis)
    (h : (cacheIds l).Nodup) : (cacheIds (cacheStep a l)).Nodup := by
  simp only [cacheIds] at h ⊢
  have hsub : (l.filter (fun item => item.id != a.id)).Sublist l :=
    List.filter_sublist l
  have hnd : ((l.filter (fun item => item.id != a.id)).map
      (fun x => x.id)).Nodup :=
    (hsub.map (fun x => x.id)).nodup h
  have hnotmem : a.id ∉ (l.filter (fun item => item.id != a.id)).map
      (fun x => x.id) := by
    intro hmem
    simp only [List.mem_map] at hmem
    obtain ⟨x, hx, hxid⟩ := hmem
    have hne := List.of_mem_filter hx
    simp only [bne_iff_ne, ne_eq] at hne
    exact hne hxid
  have hcons : ((a :: l.filter (fun item => item.id != a.id)).map
      (fun x => x.id)).Nodup := by
    simp only [List.map_cons]
    exact List.nodup_cons.mpr ⟨hnotmem, hnd⟩
  unfold cacheStep
  rw [List.map_take]
  exact (List.take_sublist _ _).nodup hcons

/-- Removing the (unique) occurrence of `a.id` drops exactly one entry. -/
theorem filter_ne_length_of_mem (a : RecentAnalysis) (l : List RecentAnalysis)
    (hnd : (cacheIds l).Nodup) (hmem : a.id ∈ cacheIds l) :
    1 ≤ l.length ∧
    (l.filter (fun item => item.id != a.id)).length = l.length - 1 := by
  induction l with
  | nil => simp [cacheIds] at hmem
  | cons x xs ih =>
    simp only [cacheIds, List.map_cons, List.nodup_cons] at hnd
    simp only [cacheIds, List.map_cons, List.mem_cons] at hmem
    rcases hmem with hx | hxs
    · have hxa : (x.id != a.id) = false := by simp [hx]
      have hall : xs.filter (fun item => item.id != a.id) = xs := by
        rw [List.filter_eq_self]
        intro y hy
        simp only [bne_iff_ne, ne_eq]
        intro hya
        exact hnd.1 (hx ▸ hya ▸ List.mem_map_of_mem (fun z => z.id) hy)
      simp [List.filter_cons, hxa, hall]
    · have hxa : (x.id != a.id) = true := by
        simp only [bne_iff_ne, ne_eq]
        intro hcontra
        exact hnd.1 (hcontra ▸ hxs)
      obtain ⟨hlen, hfl⟩ := ih hnd.2 hxs
      simp only [List.filter_cons, hxa, if_true, List.length_cons]
      constructor
      · omega
      · omega

theorem saveRecentAnalysis_preserves_inv
    (w : List RecentAnalysis → Option JsError)
    (blob : Blob (List RecentAnalysis)) (a : RecentAnalysis)
    (h : (getRecentAnalyses blob).length ≤ 10 ∧
      (cacheIds (getRecentAnalyses blob)).Nodup) :
    (getRecentAnalyses (saveRecentAnalysis w blob a)).length ≤ 10 ∧
    (cacheIds (getRecentAnalyses (saveRecentAnalysis w blob a))).Nodup := by
  unfold saveRecentAnalysis
  cases hw : w (cacheStep a (getRecentAnalyses blob)) with
  | none =>
    simp only [hw]
    exact ⟨cacheStep_length_le a _, cacheStep_ids_nodup a _ h.2⟩
  | some e =>
    simp only [hw]
    exact h

theorem foldl_saveRecentAnalysis_inv
    (w : List RecentAnalysis → Option JsError)
    (as : List RecentAnalysis) (blob : Blob (List RecentAnalysis))
    (h : (getRecentAnalyses blob).length ≤ 10 ∧
      (cacheIds (getRecentAnalyses blob)).Nodup) :
    (getRecentAnalyses (as.foldl (saveRecentAnalysis w) blob)).length ≤ 10 ∧
    (cacheIds (getRecentAnalyses (as.foldl (saveRecentAnalysis w) blob))).Nodup := by
  induction as generalizing blob with
  | nil => exact h
  | cons a as ih =>
    exact ih _ (saveRecentAnalysis_preserves_inv w blob a h)

/-- With all writes succeeding, the cache blob stays parsed data and the
fold is the pure `cacheStep` fold. -/
theorem foldl_saveRecentAnalysis_ok (as : List RecentAnalysis)
    (l : List RecentAnalysis) :
    as.foldl (saveRecentAnalysis (fun _ => none)) (.data l) =
      .data (as.foldl (fun acc a => cacheStep a acc) l) := by
  induction as generalizing l with
  | nil => rfl
  | cons a as ih => exact ih (cacheStep a l)

/-- Folding distinct-id entries through `cacheStep` keeps exactly the 10
most recently inserted, most-recent first. -/
theorem foldl_cacheStep_distinct (as : List RecentAnalysis)
    (hnd : (as.map (fun x => x.id)).Nodup) :
    as.foldl (fun acc a => cacheStep a acc) [] = as.reverse.take 10 := by
  induction as using List.reverseRecOn with
  | nil => rfl
  | append_singleton as a ih =>
    have hnd' : (as.map (fun x => x.id)).Nodup := by
      rw [List.map_append] at hnd
      exact hnd.sublist (List.sublist_append_left _ _)
    have hnotmem : a.id ∉ as.map (fun x => x.id) := by
      rw [List.map_append] at hnd
      intro hcontra
      rcases List.nodup_append.mp hnd with ⟨-, -, hdisj⟩
      exact hdisj hcontra (by simp)
    rw [List.foldl_append, ih hnd', List.foldl_cons, List.foldl_nil]
    have hfilter : (as.reverse.take 10).filter (fun item => item.id != a.id) =
        as.reverse.take 10 := by
      rw [List.filter_eq_self]
      intro x hx
      have hxas : x ∈ as := by
        have := List.mem_of_mem_take hx
        exact List.mem_reverse.mp this
      simp only [bne_iff_ne, ne_eq]
      intro hxa
      exact hnotmem (hxa ▸ List.mem_map_of_mem (fun z => z.id) hxas)
    unfold cacheStep
    rw [hfilter, List.reverse_append, List.reverse_singleton,
      List.singleton_append, List.take_succ_cons, List.take_take]
    simp

/-- C2: starting from an empty cache, any sequence of
`saveRecentAnalysis` calls (with arbitrary per-write outcomes) leaves at
most 10 entries with pairwise-distinct ids; re-inserting a present id
keeps the count, puts the new entry at the front and replaces the old
entry; and inserting distinct-id entries retains exactly the 10 most
recently inserted, most-recent first. -/
theorem recent_cache_invariants :
    (∀ (w : List RecentAnalysis → Option JsError) (as : List RecentAnalysis),
      (getRecentAnalyses (as.foldl (saveRecentAnalysis w) (.data []))).length ≤ 10 ∧
      (cacheIds (getRecentAnalyses (as.foldl (saveRecentAnalysis w) (.data [])))).Nodup) ∧
    (∀ (a : RecentAnalysis) (l : List RecentAnalysis),
      l.length ≤ 10 → (cacheIds l).Nodup → a.id ∈ cacheIds l →
      saveRecentAnalysis (fun _ => none) (.data l) a = .data (cacheStep a l) ∧
      (cacheStep a l).length = l.length ∧
      (cacheStep a l).head? = some a ∧
      (∀ x ∈ cacheStep a l, x.id = a.id → x = a)) ∧
    (∀ as : List RecentAnalysis, (as.map (fun x => x.id)).Nodup →
      getRecentAnalyses
          (as.foldl (saveRecentAnalysis (fun _ => none)) (.data [])) =
        as.reverse.take 10) := by
  refine ⟨fun w as => foldl_saveRecentAnalysis_inv w as _ (by simp [getRecentAnalyses, parseListOrEmpty, cacheIds]),
    fun a l hlen hnd hmem => ?_, fun as hnd => ?_⟩
  · obtain ⟨hone, hfl⟩ := filter_ne_length_of_mem a l hnd hmem
    have hsteplen : (a :: l.filter (fun item => item.id != a.id)).length = l.length := by
      simp only [List.length_cons, hfl]
      omega
    have hstep : cacheStep a l = a :: l.filter (fun item => item.id != a.id) := by
      unfold cacheStep
      exact List.take_of_length_le (by omega)
    refine ⟨rfl, ?_, ?_, ?_⟩
    · rw [hstep]; exact hsteplen
    · rw [hstep]; rfl
    · intro x hx hxid
      rw [hstep] at hx
      rcases List.mem_cons.mp hx with hxa | hxf
      · exact hxa
      · have := List.of_mem_filter hxf
        simp only [bne_iff_ne, ne_eq] at this
        exact absurd hxid this
  · rw [foldl_saveRecentAnalysis_ok, foldl_cacheStep_distinct as hnd]
    rfl

/-- A minimal cache entry used in concrete witnesses. -/
def mkEntry (i : String) : RecentAnalysis :=
  { id := i, name := i, createdAt := "", sourceType := "file", fileName := i,
    rawText := "", riskScore := 0, riskSummary := "Low", summary := [],
    clauses := [] }

/-- C2 witness: re-inserting the present id `"y"` into a two-entry cache
keeps the count at 2, moves the entry to the front and replaces the old
copy. -/
theorem recent_cache_invariants_witness :
    saveRecentAnalysis (fun _ => none) (.data [mkEntry "x", mkEntry "y"])
        (mkEntry "y") =
      .data (cacheStep (mkEntry "y") [mkEntry "x", mkEntry "y"]) ∧
    (cacheStep (mkEntry "y") [mkEntry "x", mkEntry "y"]).length =
      ([mkEntry "x", mkEntry "y"] : List RecentAnalysis).length ∧
    (cacheStep (mkEntry "y") [mkEntry "x", mkEntry "y"]).head? =
      some (mkEntry "y") ∧
    (∀ x ∈ cacheStep (mkEntry "y") [mkEntry "x", mkEntry "y"],
      x.id = (mkEntry "y").id → x = mkEntry "y") :=
  recent_cache_invariants.2.1 (mkEntry "y") [mkEntry "x", mkEntry "y"]
    (by decide) (by decide) (by decide)

/-! ## C6 — Submit validation -/

/-- A valid PDF file for concrete scenarios. -/
def goodFile : UploadFile :=
  { key := 10, name := "a.pdf", type := "application/pdf", size := 1 }

/-- A file with a disallowed media type. -/
def badFile : UploadFile :=
  { key := 11, name := "c.txt", type := "text/plain", size := 1 }

/-- C6 counterexample: submitting an invalid file together with a valid
one rejects the invalid file, but the final `globalError` is `null` — the
descriptive rejection error is not surfaced to the caller, because the
handler clears it whenever at least one file is accepted. -/
theorem submit_error_not_surfaced_counterexample :
    validTypes.contains badFile.type = false ∧
    (validateAndAddFiles ⟨[], none⟩ [badFile, goodFile]).files =
      [{ file := goodFile, status := .pending }] ∧
    (validateAndAddFiles ⟨[], none⟩ [badFile, goodFile]).globalError = none := by
  decide

theorem submit_foldl_snd (fl : List UploadFile) (e0 : Option String)
    (acc0 : List FileUploadState) :
    (fl.foldl submitStep (e0, acc0)).2 =
      acc0 ++ (fl.filter (fun f => validTypes.contains f.type)).map
        (fun f => { file := f, status := .pending }) := by
  induction fl generalizing e0 acc0 with
  | nil => simp
  | cons f fl ih =>
    rw [List.foldl_cons, List.filter_cons]
    cases h : validTypes.contains f.type with
    | true =>
      have hstep : submitStep (e0, acc0) f =
          (e0, acc0 ++ [{ file := f, status := .pending }]) := by
        unfold submitStep; rw [h]; simp
      rw [hstep, ih]
      simp
    | false =>
      have hstep : submitStep (e0, acc0) f =
          (some (invalidFormatMsg f.name), acc0) := by
        unfold submitStep; rw [h]; simp
      rw [hstep, ih]
      simp

theorem submit_foldl_fst (fl : List UploadFile) (e0 : Option String)
    (acc0 : List FileUploadState) :
    (fl.foldl submitStep (e0, acc0)).1 =
      match (fl.filter (fun f => !(validTypes.contains f.type))).getLast? with
      | some f => some (invalidFormatMsg f.name)
      | none => e0 := by
  induction fl generalizing e0 acc0 with
  | nil => simp
  | cons f fl ih =>
    rw [List.foldl_cons, List.filter_cons]
    cases h : validTypes.contains f.type with
    | true =>
      have hstep : submitStep (e0, acc0) f =
          (e0, acc0 ++ [{ file := f, status := .pending }]) := by
        unfold submitStep; rw [h]; simp
      rw [hstep]
      have hif : (if (!true : Bool) = true
          then f :: fl.filter (fun g => !(validTypes.contains g.type))
          else fl.filter (fun g => !(validTypes.contains g.type))) =
          fl.filter (fun g => !(validTypes.contains g.type)) := by simp
      rw [hif]
      exact ih e0 _
    | false =>
      have hstep : submitStep (e0, acc0) f =
          (some (invalidFormatMsg f.name), acc0) := by
        unfold submitStep; rw [h]; simp
      rw [hstep, ih]
      have hif : (if (!false : Bool) = true
          then f :: fl.filter (fun g => !(validTypes.contains g.type))
          else fl.filter (fun g => !(validTypes.contains g.type))) =
          f :: fl.filter (fun g => !(validTypes.contains g.type)) := by simp
      rw [hif]
      cases hl : (fl.filter (fun g => !(validTypes.contains g.type))).getLast? with
      | none => rw [List.getLast?_cons, hl]; rfl
      | some g => rw [List.getLast?_cons, hl]; rfl

/-- C6 amended: `Submit` accepts exactly the files whose media type is in
the allow-list, appending them in order as `pending` (one rejection never
blocks the other files); however the descriptive rejection error survives
only when no file in the submission is valid (it then names the last
rejected file) — when at least one file is accepted, the error indicator
ends up cleared. -/
theorem validateAndAddFiles_amended (st : UploadComponentState)
    (fileList : List UploadFile) :
    (validateAndAddFiles st fileList).files =
      st.files ++ (fileList.filter (fun f => validTypes.contains f.type)).map
        (fun f => { file := f, status := .pending }) ∧
    (fileList.any (fun f => validTypes.contains f.type) = true →
      (validateAndAddFiles st fileList).globalError = none) ∧
    (fileList.all (fun f => !(validTypes.contains f.type)) = true →
      (validateAndAddFiles st fileList).files = st.files ∧
      (validateAndAddFiles st fileList).globalError =
        match fileList.getLast? with
        | some f => some (invalidFormatMsg f.name)
        | none => st.globalError) := by
  have hsnd := submit_foldl_snd fileList st.globalError []
  have hfst := submit_foldl_fst fileList st.globalError []
  unfold validateAndAddFiles
  refine ⟨?_, ?_, ?_⟩
  · by_cases hlen :
      (fileList.foldl submitStep (st.globalError, [])).2.length > 0
    · simp only [hlen, if_true]
      rw [hsnd]
      simp
    · simp only [hlen, if_false]
      rw [hsnd] at hlen
      simp only [List.nil_append, gt_iff_lt, not_lt, Nat.le_zero,
        List.length_eq_zero, List.length_map] at hlen
      rw [hlen]
      simp
  · intro hany
    obtain ⟨f, hf, hvf⟩ := List.any_eq_true.mp hany
    have hffilter : f ∈ fileList.filter (fun g => validTypes.contains g.type) :=
      List.mem_filter.mpr ⟨hf, hvf⟩
    have hlen : (fileList.foldl submitStep (st.globalError, [])).2.length > 0 := by
      rw [hsnd]
      simp only [List.nil_append, List.length_map]
      exact List.length_pos.mpr (List.ne_nil_of_mem hffilter)
    simp [hlen]
  · intro hall
    have hallmem : ∀ f ∈ fileList, validTypes.contains f.type = false := by
      intro f hf
      have := List.all_eq_true.mp hall f hf
      simpa only [Bool.not_eq_true'] using this
    have hfilterval : fileList.filter (fun f => validTypes.contains f.type) = [] := by
      rw [List.filter_eq_nil_iff]
      intro f hf
      rw [hallmem f hf]
      simp
    have hfilterinv :
        fileList.filter (fun f => !(validTypes.contains f.type)) = fileList := by
      rw [List.filter_eq_self]
      intro f hf
      rw [hallmem f hf]
      rfl
    have hlen : ¬((fileList.foldl submitStep (st.globalError, [])).2.length > 0) := by
      rw [hsnd, hfilterval]
      simp
    simp only [hlen, if_false]
    refine ⟨trivial, ?_⟩
    rw [hfst, hfilterinv]

/-- C6 amended witness: a mixed bad/good submission accepts exactly the
good file as `pending`. -/
theorem validateAndAddFiles_amended_witness :
    (validateAndAddFiles ⟨[], some "old"⟩ [badFile, goodFile]).globalError =
      none :=
  (validateAndAddFiles_amended ⟨[], some "old"⟩ [badFile, goodFile]).2.1
    (by decide)

/-! ## C10 — Remove -/

/-- Indices at or above `n` all survive a filter against a smaller
index. -/
theorem enumFrom_filter_ne_lt (l : List FileUploadState) :
    ∀ (n i : Nat), i < n →
      ((l.enumFrom n).filter (fun p => p.1 != i)).map (fun p => p.2) = l := by
  induction l with
  | nil => intro n i _; rfl
  | cons f fs ih =>
    intro n i h
    have hne : (n != i) = true := by
      simp only [bne_iff_ne, ne_eq]
      omega
    show (((n, f) :: fs.enumFrom (n + 1)).filter
        (fun p => p.1 != i)).map (fun p => p.2) = f :: fs
    rw [List.filter_cons]
    simp only [hne, if_true, List.map_cons]
    rw [ih (n + 1) i (by omega)]

/-- Filtering out index `n + i` of `enumFrom n` erases position `i`. -/
theorem enumFrom_filter_ne_eraseIdx (l : List FileUploadState) :
    ∀ (n i : Nat),
      ((l.enumFrom n).filter (fun p => p.1 != n + i)).map (fun p => p.2) =
        l.eraseIdx i := by
  induction l with
  | nil => intro n i; rfl
  | cons f fs ih =>
    intro n i
    show (((n, f) :: fs.enumFrom (n + 1)).filter
        (fun p => p.1 != n + i)).map (fun p => p.2) = (f :: fs).eraseIdx i
    cases i with
    | zero =>
      have hn : (n != n + 0) = false := by simp
      rw [List.filter_cons]
      simp only [hn, Bool.false_eq_true, if_false, List.eraseIdx_cons_zero]
      have := enumFrom_filter_ne_lt fs (n + 1) n (by omega)
      simpa using this
    | succ j =>
      have hn : (n != n + (j + 1)) = true := by
        simp only [bne_iff_ne, ne_eq]
        omega
      rw [List.filter_cons]
      simp only [hn, if_true, List.map_cons, List.eraseIdx_cons_succ]
      have := ih (n + 1) j
      rw [show n + 1 + j = n + (j + 1) by omega] at this
      rw [this]

/-- `handleRemoveFile` is exactly deletion of position `index`. -/
theorem handleRemoveFile_eq_eraseIdx (files : List FileUploadState)
    (index : Nat) : handleRemoveFile files index = files.eraseIdx index := by
  unfold handleRemoveFile
  have := enumFrom_filter_ne_eraseIdx files 0 index
  simpa [List.enum_eq_enumFrom] using this

/-- C10 counterexample: invoking Remove on a `processing` item deletes it
from the batch, contrary to the claim that a non-pending item is never
removed. -/
theorem remove_nonpending_counterexample :
    ({ file := { key := 10, name := "a.pdf", type := "application/pdf",
                 size := 1 },
       status := .processing } : FileUploadState).status ≠ .pending ∧
    handleRemoveFile
      [{ file := { key := 10, name := "a.pdf", type := "application/pdf",
                   size := 1 },
         status := .processing }] 0 = [] := by
  exact ⟨by decide, rfl⟩

/-- C10 amended: `handleRemoveFile` unconditionally deletes the entry at
the given index (shrinking any batch with an in-range index, whatever the
item's status); the guard is in the view instead — the control that
invokes `handleRemoveFile` is rendered only while the item's status is
`pending`. -/
theorem handleRemoveFile_amended (files : List FileUploadState) (i : Nat)
    (h : i < files.length) :
    handleRemoveFile files i = files.eraseIdx i ∧
    (handleRemoveFile files i).length = files.length - 1 ∧
    (removeButtonVisible (files.get ⟨i, h⟩).status = true ↔
      (files.get ⟨i, h⟩).status = .pending) := by
  refine ⟨handleRemoveFile_eq_eraseIdx files i, ?_, ?_⟩
  · rw [handleRemoveFile_eq_eraseIdx files i]
    exact List.length_eraseIdx_of_lt h
  · unfold removeButtonVisible
    exact beq_iff_eq

/-- C10 amended witness: a two-item batch loses its first item. -/
theorem handleRemoveFile_amended_witness :
    handleRemoveFile
        [({ file := { key := 0, name := "a.pdf", type := "application/pdf",
                      size := 1 }, status := .pending } : FileUploadState),
         ({ file := { key := 1, name := "b.pdf", type := "application/pdf",
                      size := 1 }, status := .success } : FileUploadState)] 0 =
      ([({ file := { key := 0, name := "a.pdf", type := "application/pdf",
                     size := 1 }, status := .pending } : FileUploadState),
         ({ file := { key := 1, name := "b.pdf", type := "application/pdf",
                      size := 1 }, status := .success } : FileUploadState)] :
        List FileUploadState).eraseIdx 0 :=
  (handleRemoveFile_amended _ 0 (by decide)).1

/-! ## C9 — write-error propagation -/

/-- A cache `setItem` model that always throws the quota error. -/
def alwaysQuota : List RecentAnalysis → Option JsError :=
  fun _ => some quotaError

/-- C9 counterexample: the recent-analysis cache write fails (its
`setItem` throws the quota error), yet the caller of
`saveRecentAnalysis` receives a normal return with the cache unchanged —
the store-level write error does not propagate to the pipeline. -/
theorem cache_write_failure_swallowed_counterexample :
    alwaysQuota (cacheStep (mkEntry "y") [mkEntry "x"]) = some quotaError ∧
    saveRecentAnalysisE alwaysQuota (.data [mkEntry "x"]) (mkEntry "y") =
      .ok (.data [mkEntry "x"]) :=
  ⟨rfl, rfl⟩

/-- C9 amended: Document write errors propagate to the caller — a
non-quota failure of the full write is rethrown, and a failure of the
light retry after a quota error is rethrown — but the recent-analysis
cache write catches its own errors and always returns normally, so a
cache write error never reaches the pipeline. -/
theorem write_error_propagation_amended
    (w : List Contract → Option JsError) (blob : Blob (List Contract))
    (c : Contract) (e : JsError)
    (hfull : saveToStorage w blob c = .error e) :
    (isQuotaError e = false → saveContract w blob c = .error e) ∧
    (∀ e2, isQuotaError e = true →
      saveToStorage w blob (lightCopy c) = .error e2 →
      saveContract w blob c = .error e2) ∧
    (∀ (wc : List RecentAnalysis → Option JsError)
      (cb : Blob (List RecentAnalysis)) (a : RecentAnalysis),
      saveRecentAnalysisE wc cb a = .ok (saveRecentAnalysis wc cb a)) := by
  refine ⟨?_, ?_, fun wc cb a => rfl⟩
  · intro hq
    unfold saveContract
    rw [hfull]
    simp [hq]
  · intro e2 hq hlight
    unfold saveContract
    rw [hfull]
    simp [hq, hlight]

/-- An exception that is not a quota error. -/
def unknownError : JsError := { name := "UnknownError", code := 1 }

/-- C9 amended witness: a non-quota write failure is rethrown by
`saveContract` at a concrete input. -/
theorem write_error_propagation_amended_witness :
    saveContract (fun _ => some unknownError) .absent probeContract =
      .error unknownError :=
  (write_error_propagation_amended (fun _ => some unknownError) .absent
      probeContract unknownError (by rfl)).1 (by decide)

/-! ## processFile and merge lemmas -/

theorem processFile_file (env : ProcessEnv) (u : String)
    (fs : FileUploadState) : (processFile env u fs).file = fs.file := by
  unfold processFile
  cases env.readResult fs.file with
  | error e => rfl
  | ok b =>
    dsimp only
    cases env.analyzeResult b fs.file.type with
    | error e => rfl
    | ok an =>
      dsimp only
      cases env.saveResult _ with
      | some e => rfl
      | none => rfl

theorem processFile_terminal (env : ProcessEnv) (u : String)
    (fs : FileUploadState) :
    (processFile env u fs).status = .success ∨
      ((processFile env u fs).status = .error ∧
        (processFile env u fs).error = some "Failed to analyze") := by
  unfold processFile
  cases env.readResult fs.file with
  | error e => exact Or.inr ⟨rfl, rfl⟩
  | ok b =>
    dsimp only
    cases env.analyzeResult b fs.file.type with
    | error e => exact Or.inr ⟨rfl, rfl⟩
    | ok an =>
      dsimp only
      cases env.saveResult _ with
      | some e => exact Or.inr ⟨rfl, rfl⟩
      | none => exact Or.inl rfl

theorem processFile_success_contract (env : ProcessEnv) (u : String)
    (fs : FileUploadState) (h : (processFile env u fs).status = .success) :
    ∃ c, (processFile env u fs).contract = some c := by
  unfold processFile at h ⊢
  cases hr : env.readResult fs.file with
  | error e =>
    rw [hr] at h
    dsimp only at h
    exact absurd h (by decide)
  | ok b =>
    rw [hr] at h
    dsimp only at h ⊢
    cases ha : env.analyzeResult b fs.file.type with
    | error e =>
      rw [ha] at h
      dsimp only at h
      exact absurd h (by decide)
    | ok an =>
      rw [ha] at h
      dsimp only at h ⊢
      cases hs : env.saveResult _ with
      | some e =>
        rw [hs] at h
        dsimp only at h
        exact absurd h (by decide)
      | none => exact ⟨_, rfl⟩

theorem mergeResults_cons_unfold (cur : List FileUploadState)
    (res : FileUploadState) (rest : List FileUploadState) :
    mergeResults cur (res :: rest) = mergeResults (mergeStep cur res) rest :=
  rfl

theorem mergeStep_cons_skip (c res : FileUploadState)
    (cur : List FileUploadState) (h : (c.file == res.file) = false) :
    mergeStep (c :: cur) res = c :: mergeStep cur res := by
  unfold mergeStep
  rw [List.findIdx?_cons]
  simp only [h, Bool.false_eq_true, if_false, List.findIdx?_succ]
  cases hf : cur.findIdx? (fun f => f.file == res.file) with
  | none => simp [hf]
  | some j => simp [hf]

theorem mergeStep_cons_hit (c res : FileUploadState)
    (cur : List FileUploadState) (h : (c.file == res.file) = true) :
    mergeStep (c :: cur) res = res :: cur := by
  unfold mergeStep
  rw [List.findIdx?_cons]
  simp [h]

theorem mergeResults_cons_skip (c : FileUploadState)
    (cur results : List FileUploadState)
    (h : ∀ res ∈ results, (c.file == res.file) = false) :
    mergeResults (c :: cur) results = c :: mergeResults cur results := by
  induction results generalizing cur with
  | nil => rfl
  | cons res rest ih =>
    rw [mergeResults_cons_unfold, mergeResults_cons_unfold,
      mergeStep_cons_skip c res cur (h res (by simp))]
    exact ih _ (fun r hr => h r (by simp [hr]))

/-- The merged batch after `handleAnalyzeAll`'s two state updates: with
pairwise-distinct file identities, every item that was `pending` at
call time carries its own `processFile` result and every other item is
untouched. -/
theorem merge_mark_fidelity (env : ProcessEnv) (u : String)
    (l : List FileUploadState)
    (hnd : (l.map (fun f => f.file)).Nodup) :
    mergeResults (markProcessing l)
        ((l.filter (fun f => f.status == .pending)).map (processFile env u)) =
      l.map (fun f =>
        if f.status == .pending then processFile env u f else f) := by
  induction l with
  | nil => rfl
  | cons x xs ih =>
    rw [List.map_cons, List.nodup_cons] at hnd
    obtain ⟨hxnot, hndxs⟩ := hnd
    have hskip : ∀ res ∈ (xs.filter (fun f => f.status == .pending)).map
        (processFile env u), (x.file == res.file) = false := by
      intro res hres
      rw [List.mem_map] at hres
      obtain ⟨g, hg, hgres⟩ := hres
      have hgxs : g ∈ xs := List.mem_of_mem_filter hg
      have : res.file = g.file := hgres ▸ processFile_file env u g
      rw [this]
      rw [beq_eq_false_iff_ne]
      intro hcontra
      exact hxnot (hcontra ▸ List.mem_map_of_mem (fun f => f.file) hgxs)
    cases hp : x.status == FileStatus.pending with
    | true =>
      have hmark : markProcessing (x :: xs) =
          { x with status := .processing } :: markProcessing xs := by
        unfold markProcessing
        rw [List.map_cons, hp]
        simp
      have hfil : (x :: xs).filter (fun f => f.status == .pending) =
          x :: xs.filter (fun f => f.status == .pending) := by
        rw [List.filter_cons, hp]
        simp
      have hhit : (({ x with status := FileStatus.processing } :
          FileUploadState).file == (processFile env u x).file) = true := by
        rw [processFile_file]
        exact beq_iff_eq.mpr rfl
      rw [hmark, hfil, List.map_cons, mergeResults_cons_unfold,
        mergeStep_cons_hit _ _ _ hhit]
      have hskip' : ∀ res ∈ (xs.filter (fun f => f.status == .pending)).map
          (processFile env u),
          ((processFile env u x).file == res.file) = false := by
        intro res hres
        rw [processFile_file]
        exact hskip res hres
      rw [mergeResults_cons_skip _ _ _ hskip', ih hndxs, List.map_cons, hp]
      simp
    | false =>
      have hmark : markProcessing (x :: xs) = x :: markProcessing xs := by
        unfold markProcessing
        rw [List.map_cons, hp]
        simp
      have hfil : (x :: xs).filter (fun f => f.status == .pending) =
          xs.filter (fun f => f.status == .pending) := by
        rw [List.filter_cons, hp]
        simp
      rw [hmark, hfil, mergeResults_cons_skip _ _ _ hskip, ih hndxs,
        List.map_cons, hp]
      simp

/-- In every branch of `handleAnalyzeAll`, the published batch is the
merge of the marked batch with the settled results. -/
theorem handleAnalyzeAll_files_eq (env : ProcessEnv) (u : String)
    (files : List FileUploadState) :
    (handleAnalyzeAll env u files).files =
      mergeResults (markProcessing files)
        ((files.filter (fun f => f.status == .pending)).map
          (processFile env u)) := by
  unfold handleAnalyzeAll
  dsimp only
  repeat' split
  all_goals rfl

/-! ## C3 — per-item failure isolation in AnalyzeAll -/

/-- C3: with pairwise-distinct file identities, the batch published by
`handleAnalyzeAll` maps every item that was `pending` at call time to its
own `processFile` result — a function of that item alone, so no sibling's
conversion, analysis or store-write outcome can change it — and leaves
every other item untouched; and every dispatch terminates in `success`
or in `error` with the human-readable reason `'Failed to analyze'`
(every failure inside a dispatch is caught there). -/
theorem analyzeAll_per_item_isolation (env : ProcessEnv) (u : String)
    (files : List FileUploadState)
    (hnd : (files.map (fun f => f.file)).Nodup) :
    (handleAnalyzeAll env u files).files =
      files.map (fun f =>
        if f.status == .pending then processFile env u f else f) ∧
    (∀ fs : FileUploadState, (processFile env u fs).status = .success ∨
      ((processFile env u fs).status = .error ∧
        (processFile env u fs).error = some "Failed to analyze")) :=
  ⟨(handleAnalyzeAll_files_eq env u files).trans
      (merge_mark_fidelity env u files hnd),
    fun fs => processFile_terminal env u fs⟩

/-- A pending upload item for File A. -/
def itemA : FileUploadState :=
  { file := { key := 0, name := "a.pdf", type := "application/pdf",
              size := 1 },
    status := .pending }

/-- A pending upload item for File B. -/
def itemB : FileUploadState :=
  { file := { key := 1, name := "b.pdf", type := "application/pdf",
              size := 1 },
    status := .pending }

/-- An environment in which every dispatch step succeeds. -/
def envOk : ProcessEnv :=
  { readResult := fun _ => .ok "ZmlsZQ=="
    analyzeResult := fun _ _ => .ok probeAnalysis
    genId := fun f => f.name
    now := 5
    saveResult := fun _ => none }

/-- An environment in which only File B's store write fails. -/
def envFailB : ProcessEnv :=
  { readResult := fun _ => .ok "ZmlsZQ=="
    analyzeResult := fun _ _ => .ok probeAnalysis
    genId := fun f => f.name
    now := 5
    saveResult := fun c => if c.fileName == "b.pdf" then some quotaError
      else none }

/-- C3 witness: in a concrete two-item batch where only File B's store
write fails, the published batch is the per-item map — A succeeds and B
fails independently. -/
theorem analyzeAll_per_item_isolation_witness :
    (handleAnalyzeAll envFailB "u" [itemA, itemB]).files =
      [itemA, itemB].map (fun f =>
        if f.status == .pending then processFile envFailB "u" f else f) :=
  (analyzeAll_per_item_isolation envFailB "u" [itemA, itemB] (by decide)).1

/-! ## C5 — AnalyzeAll on an all-terminal batch -/

/-- A single item already in the terminal `error` state. -/
def terminalErrorItem : FileUploadState :=
  { file := { key := 7, name := "e.pdf", type := "application/pdf",
              size := 1 },
    status := .error, error := some "Failed to analyze" }

/-- C5: evaluating `handleAnalyzeAll` on a batch of exactly one item that
is already terminal: nothing is dispatched and no status changes, but the
navigation check reads `.status` of `results[0]` on the empty results
array, so the handler throws a `TypeError` instead of returning quietly —
the spec's no-op idempotence claim fails on singleton batches. -/
theorem analyzeAll_singleton_terminal_throws :
    terminalErrorItem.status = .error ∧
    (handleAnalyzeAll envOk "u" [terminalErrorItem]).files =
      [terminalErrorItem] ∧
    (handleAnalyzeAll envOk "u" [terminalErrorItem]).navigate = none ∧
    (handleAnalyzeAll envOk "u" [terminalErrorItem]).thrown =
      some "TypeError: Cannot read properties of undefined (reading 'status')" :=
  ⟨rfl, rfl, rfl, rfl⟩

/-! ## C4 — the navigation rule -/

theorem handleAnalyzeAll_navigate_pending_singleton (env : ProcessEnv)
    (u : String) (f : FileUploadState) (hp : f.status = .pending) :
    (handleAnalyzeAll env u [f]).navigate =
      (if (processFile env u f).status == FileStatus.success then
        (processFile env u f).contract else none) := by
  have hfil : List.filter (fun x => x.status == FileStatus.pending) [f] =
      [f] := by
    simp [hp]
  unfold handleAnalyzeAll
  simp only [hfil, List.map_cons, List.map_nil, List.head?_cons,
    List.length_cons, List.length_nil, Nat.zero_add, beq_self_eq_true,
    if_true]
  cases hs : (processFile env u f).status == FileStatus.success with
  | true =>
    cases hc : (processFile env u f).contract with
    | some c => simp
    | none => simp
  | false => simp

theorem handleAnalyzeAll_navigate_nonpending_singleton (env : ProcessEnv)
    (u : String) (f : FileUploadState) (hp : f.status ≠ .pending) :
    (handleAnalyzeAll env u [f]).navigate = none := by
  have hfil : List.filter (fun x => x.status == FileStatus.pending) [f] =
      [] := by
    simp [hp]
  unfold handleAnalyzeAll
  simp [hfil]

theorem handleAnalyzeAll_navigate_big (env : ProcessEnv) (u : String)
    (f g : FileUploadState) (rest : List FileUploadState) :
    (handleAnalyzeAll env u (f :: g :: rest)).navigate = none := by
  have hlen : (((f :: g :: rest) : List FileUploadState).length == 1) =
      false := by
    simp
  unfold handleAnalyzeAll
  simp [hlen]

/-- C4: `handleAnalyzeAll` emits the navigate-to-artifact signal iff the
batch at call time consisted of exactly one item, that item was `pending`
and its dispatch terminated `success`; the signal then carries the
resulting contract, and a batch of two or more items never emits the
signal whatever the outcomes.  ("Terminates success" reads as: the item
is dispatched by this invocation and succeeds — a singleton batch whose
item is already terminal emits nothing; see the C5 analysis for what the
handler does instead in that case.) -/
theorem analyzeAll_navigation (env : ProcessEnv) (u : String)
    (files : List FileUploadState) :
    ((handleAnalyzeAll env u files).navigate ≠ none ↔
      ∃ f, files = [f] ∧ f.status = .pending ∧
        (processFile env u f).status = .success) ∧
    (∀ f, files = [f] → f.status = .pending →
      (processFile env u f).status = .success →
      (handleAnalyzeAll env u files).navigate =
        (processFile env u f).contract) ∧
    (2 ≤ files.length → (handleAnalyzeAll env u files).navigate = none) := by
  rcases files with - | ⟨f, - | ⟨g, rest⟩⟩
  · refine ⟨?_, ?_, ?_⟩
    · constructor
      · intro h; exact absurd rfl h
      · rintro ⟨f, hf, -, -⟩; exact absurd hf (by simp)
    · intro f hf; exact absurd hf (by simp)
    · intro h2; simp at h2
  · by_cases hp : f.status = FileStatus.pending
    · by_cases hs : (processFile env u f).status = FileStatus.success
      · obtain ⟨c, hc⟩ := processFile_success_contract env u f hs
        have hnav := handleAnalyzeAll_navigate_pending_singleton env u f hp
        rw [beq_iff_eq.mpr hs] at hnav
        simp only [if_true] at hnav
        rw [hc] at hnav
        refine ⟨?_, ?_, ?_⟩
        · constructor
          · intro _; exact ⟨f, rfl, hp, hs⟩
          · intro _; rw [hnav]; exact Option.some_ne_none c
        · intro f' hf' _ _
          have : f' = f := by
            injection hf' with h1 _
            exact h1.symm
          rw [hnav, this, hc]
        · intro h2; simp at h2
      · have hnav := handleAnalyzeAll_navigate_pending_singleton env u f hp
        rw [beq_eq_false_iff_ne.mpr hs] at hnav
        simp only [Bool.false_eq_true, if_false] at hnav
        refine ⟨?_, ?_, ?_⟩
        · constructor
          · intro h; exact absurd hnav h
          · rintro ⟨f', hf', -, hs'⟩
            have : f' = f := by
              injection hf' with h1 _
              exact h1.symm
            exact absurd (this ▸ hs') hs
        · intro f' hf' _ hs'
          have : f' = f := by
            injection hf' with h1 _
            exact h1.symm
          exact absurd (this ▸ hs') hs
        · intro h2; simp at h2
    · have hnav := handleAnalyzeAll_navigate_nonpending_singleton env u f hp
      refine ⟨?_, ?_, ?_⟩
      · constructor
        · intro h; exact absurd hnav h
        · rintro ⟨f', hf', hp', -⟩
          have : f' = f := by
            injection hf' with h1 _
            exact h1.symm
          exact absurd (this ▸ hp') hp
      · intro f' hf' hp' _
        have : f' = f := by
          injection hf' with h1 _
          exact h1.symm
        exact absurd (this ▸ hp') hp
      · intro h2; simp at h2
  · have hnav := handleAnalyzeAll_navigate_big env u f g rest
    refine ⟨?_, ?_, ?_⟩
    · constructor
      · intro h; exact absurd hnav h
      · rintro ⟨f', hf', -, -⟩
        simp at hf'
    · intro f' hf'
      exact absurd hf' (by simp)
    · intro _; exact hnav

/-- C4 witness: a concrete singleton pending batch that succeeds emits
the navigation signal with the resulting contract, and a concrete
two-item batch emits none. -/
theorem analyzeAll_navigation_witness :
    (handleAnalyzeAll envOk "u" [itemA]).navigate =
      (processFile envOk "u" itemA).contract ∧
    (handleAnalyzeAll envOk "u" [itemA, itemB]).navigate = none :=
  ⟨(analyzeAll_navigation envOk "u" [itemA]).2.1 itemA rfl (by decide)
      (by decide),
    (analyzeAll_navigation envOk "u" [itemA, itemB]).2.2 (by decide)⟩

end LegalLens
